import Mathlib

/-!
Shallow embedding of the post-listing and post-retrieval core of a static
blog (Next.js + contentlayer).  The embedded sources are:

* `app/posts/[...slug]/page.tsx` — `getPostFromParams`, `generateMetadata`,
  `generateStaticParams`, `PostPage`;
* `app/page.tsx` — `Home` (the listing view: in-place date-descending sort of
  `allPosts` followed by rendering one entry per post).

JavaScript strings are Lean `String`s; `split("/")` and `join("/")` are
modelled at the `List Char` level (`splitSlash`, `joinSlash`).  `new
Date(s).getTime()` is modelled for ISO `YYYY-MM-DD` date-only strings as
`jsDateMs : String → Option Int` (milliseconds since the Unix epoch; `none`
models `NaN` for unparseable strings).  `Array.prototype.sort`, which the
ECMAScript specification requires to be stable, is modelled as a stable
insertion sort with the source's comparator; since `sort` mutates the array
in place, `Home` returns both the rendered entries and the state of the
`allPosts` array after rendering.
-/

/-- Month-name style of `toLocaleDateString`: the values `"short"` and
`"long"` of its `month` option. -/
inductive MonthStyle where
  | short
  | long
deriving DecidableEq

/-- English month names, for the en-US locale with `month: "long"`. -/
def monthNamesLong : List String :=
  ["January", "February", "March", "April", "May", "June",
   "July", "August", "September", "October", "November", "December"]

/-- Abbreviated English month names, for the en-US locale with
`month: "short"`. -/
def monthNamesShort : List String :=
  ["Jan", "Feb", "Mar", "Apr", "May", "Jun",
   "Jul", "Aug", "Sep", "Oct", "Nov", "Dec"]

/-- Name of month `m` (1-based) in the given style. -/
def monthName (style : MonthStyle) (m : Nat) : String :=
  (match style with
   | MonthStyle.long => monthNamesLong
   | MonthStyle.short => monthNamesShort).getD (m - 1) ""

/-- Gregorian leap-year test. -/
def isLeapYear (y : Nat) : Bool :=
  (y % 4 == 0 && y % 100 != 0) || y % 400 == 0

/-- Number of days in month `m` (1-based) of year `y`. -/
def daysInMonth (y m : Nat) : Nat :=
  [31, if isLeapYear y then 29 else 28, 31, 30, 31, 30,
   31, 31, 30, 31, 30, 31].getD (m - 1) 0

/-- Read a non-empty all-digit character list as a decimal number. -/
def digitsToNat? (l : List Char) : Option Nat :=
  if l.all Char.isDigit && !l.isEmpty then
    some (l.foldl (fun n c => 10 * n + (c.toNat - 48)) 0)
  else none

/-- Parse an ISO-8601 date-only string `YYYY-MM-DD` into `(year, month, day)`,
with the range validation `Date.parse` performs on this format; `none` models
the `NaN` result on any other input.  (The repository's post dates are all of
this date-only form.) -/
def parseYMD (s : String) : Option (Nat × Nat × Nat) :=
  match s.toList.splitOn '-' with
  | [ys, ms, ds] =>
    if ys.length == 4 && ms.length == 2 && ds.length == 2 then
      match digitsToNat? ys, digitsToNat? ms, digitsToNat? ds with
      | some y, some m, some d =>
        if 1 ≤ m && m ≤ 12 && 1 ≤ d && d ≤ daysInMonth y m then
          some (y, m, d)
        else none
      | _, _, _ => none
    else none
  | _ => none

/-- Days in the year strictly before month `m` (1-based). -/
def monthDaysBefore (y m : Nat) : Nat :=
  [0, 31, 59, 90, 120, 151, 181, 212, 243, 273, 304, 334].getD (m - 1) 0 +
    (if 2 < m && isLeapYear y then 1 else 0)

/-- Days from 1970-01-01 to the Gregorian date `y`-`m`-`d` (exact for
years ≥ 1, which covers every four-digit year the parser accepts). -/
def daysSinceEpoch (y m d : Nat) : Int :=
  let py := y - 1
  ((365 * py + py / 4 + py / 400 - py / 100 + monthDaysBefore y m + (d - 1) : Nat) : Int)
    - 719162

/-- Model of `new Date(s).getTime()` on ISO date-only strings: UTC
milliseconds since the epoch, or `none` for `NaN`. -/
def jsDateMs (s : String) : Option Int :=
  (parseYMD s).map (fun ymd => 86400000 * daysSinceEpoch ymd.1 ymd.2.1 ymd.2.2)

/-- Model of `new Date(s).toLocaleDateString("en-US", ...)` with a numeric
year, a numeric day and the given month style, as used by both views. -/
def jsFormatDate (style : MonthStyle) (s : String) : String :=
  match parseYMD s with
  | some (y, m, d) => monthName style m ++ " " ++ toString d ++ ", " ++ toString y
  | none => "Invalid Date"

/-- A contentlayer post record, with the fields the embedded views read. -/
structure Post where
  _id : String
  title : String
  description : Option String
  date : String
  tags : Option (List String)
  slug : String
  slugAsParams : String
  body : String
deriving DecidableEq

/-- The route-parameter object of the catch-all route `posts/[...slug]`;
`slug` is `none` when the segment list is absent (`undefined`). -/
structure Params where
  slug : Option (List String)
deriving DecidableEq

/-- The metadata object returned by `generateMetadata`. -/
structure Metadata where
  title : Option String
  description : Option String
deriving DecidableEq

/-- The empty metadata object returned when no post matches. -/
def emptyMetadata : Metadata := ⟨none, none⟩

/-- Model of `segments.join("/")`. -/
def joinSlash (segs : List String) : String :=
  ⟨List.intercalate ['/'] (segs.map String.toList)⟩

/-- Model of `s.split("/")`. -/
def splitSlash (s : String) : List String :=
  (s.toList.splitOn '/').map (fun l => ⟨l⟩)

/-- Embedding of `getPostFromParams`: join the slug segments with `/` (an
absent params object or segment list leaves the joined slug `undefined`) and
return the first post whose `slugAsParams` strictly equals it. -/
def getPostFromParams (allPosts : List Post) (params : Option Params) : Option Post :=
  let slug : Option String := params.bind (fun p => p.slug.map joinSlash)
  allPosts.find? (fun post =>
    match slug with
    | some s => post.slugAsParams == s
    | none => false)

/-- Embedding of `generateMetadata`: the same lookup; an empty metadata
object when no post matches, otherwise the post's title and description. -/
def generateMetadata (allPosts : List Post) (params : Option Params) : Metadata :=
  match getPostFromParams allPosts params with
  | none => emptyMetadata
  | some post => ⟨some post.title, post.description⟩

/-- Embedding of `generateStaticParams`: one params object per post, whose
segments split the post's `slugAsParams` on `/`. -/
def generateStaticParams (allPosts : List Post) : List Params :=
  allPosts.map (fun post => ⟨some (splitSlash post.slugAsParams)⟩)

/-- The article block rendered by the detail view for a found post. -/
structure Article where
  title : String
  dateFormatted : String
  description : Option String
  body : String
deriving DecidableEq

/-- Result of rendering a routed page: either the framework's not-found
signal (`notFound()` was invoked, terminating the request) or a page. -/
inductive RenderResult (α : Type) where
  | notFound
  | page (a : α)
deriving DecidableEq

/-- Embedding of the `PostPage` component: look the post up; invoke the
not-found signal when absent, otherwise render title, long-month formatted
date, optional description and body. -/
def PostPage (allPosts : List Post) (params : Option Params) : RenderResult Article :=
  match getPostFromParams allPosts params with
  | none => RenderResult.notFound
  | some post =>
    RenderResult.page
      ⟨post.title, jsFormatDate MonthStyle.long post.date, post.description, post.body⟩

/-- The sort key of the listing comparator: `new Date(p.date).getTime()`. -/
def postTime (p : Post) : Option Int := jsDateMs p.date

/-- The listing comparator `(a, b) => new Date(b.date).getTime() - new
Date(a.date).getTime()`; a `NaN` result is treated as `+0` exactly as the
ECMAScript `SortCompare` operation does. -/
def jsCompare (a b : Post) : Int :=
  match postTime b, postTime a with
  | some tb, some ta => tb - ta
  | _, _ => 0

/-- Insert a post into a list, before the first element `y` with
`jsCompare x y ≤ 0` — the placement a stable comparator sort gives. -/
def insertPost (x : Post) : List Post → List Post
  | [] => [x]
  | y :: ys => if jsCompare x y ≤ 0 then x :: y :: ys else y :: insertPost x ys

/-- Model of `allPosts.sort(comparator)` as a stable insertion sort:
`Array.prototype.sort` is required to be stable by the ECMAScript
specification. -/
def sortPosts : List Post → List Post
  | [] => []
  | x :: xs => insertPost x (sortPosts xs)

/-- One rendered block of the listing view: key, linked title, short-month
formatted date, optional description, optional tag badges. -/
structure HomeEntry where
  key : String
  title : String
  href : String
  dateFormatted : String
  description : Option String
  tags : Option (List String)
deriving DecidableEq

/-- The listing block rendered for one post by `Home`. -/
def mkHomeEntry (post : Post) : HomeEntry :=
  ⟨post._id, post.title, post.slug,
   jsFormatDate MonthStyle.short post.date, post.description, post.tags⟩

/-- Embedding of the `Home` listing view.  `allPosts.sort(...)` sorts the
array in place and returns the same reference, so the result is the rendered
entry list together with the state of the `allPosts` array after the render. -/
def Home (allPosts : List Post) : List HomeEntry × List Post :=
  let sortedPosts := sortPosts allPosts
  (sortedPosts.map mkHomeEntry, sortedPosts)

/-- Concrete post with slug `a` and date `2025-01-01` (the spec's scenario). -/
def postA : Post :=
  ⟨"id-a", "Post A", some "first post", "2025-01-01", none, "/posts/a", "a", "body-a"⟩

/-- Concrete post with slug `b` and date `2025-06-02` (the spec's scenario). -/
def postB : Post :=
  ⟨"id-b", "Post B", some "second post", "2025-06-02", none, "/posts/b", "b", "body-b"⟩

/-- Concrete post whose `slugAsParams` is `Foo`, for the case-sensitivity
scenario. -/
def postFoo : Post :=
  ⟨"id-foo", "Foo", none, "2025-03-05", none, "/posts/Foo", "Foo", "body-foo"⟩

/-- Joining the `/`-split of a string restores the string. -/
lemma joinSlash_splitSlash (s : String) : joinSlash (splitSlash s) = s := by
  unfold joinSlash splitSlash
  rw [List.map_map]
  have h : (String.toList ∘ fun l : List Char => (⟨l⟩ : String)) = id := by
    funext l
    rfl
  rw [h, List.map_id, List.intercalate_splitOn]
  cases s
  rfl

/-- On a params object carrying a segment list, the lookup is a linear search
for the joined slug. -/
lemma getPostFromParams_some_eq (posts : List Post) (segs : List String) :
    getPostFromParams posts (some ⟨some segs⟩) =
      posts.find? (fun post => post.slugAsParams == joinSlash segs) := rfl

/-- When `slugAsParams` values are pairwise distinct, the linear search finds
the member carrying the requested slug. -/
lemma find?_slug_eq (posts : List Post) (s : String) (p : Post)
    (hu : List.Pairwise (fun a b => a.slugAsParams ≠ b.slugAsParams) posts)
    (hp : p ∈ posts) (hs : p.slugAsParams = s) :
    posts.find? (fun post => post.slugAsParams == s) = some p := by
  induction posts with
  | nil => cases hp
  | cons q qs ih =>
    rcases List.mem_cons.mp hp with rfl | hmem
    · rw [List.find?_cons]
      simp [hs]
    · have hq : q.slugAsParams ≠ p.slugAsParams :=
        (List.pairwise_cons.mp hu).1 p hmem
      have hqs : (q.slugAsParams == s) = false := by
        simp only [beq_eq_false_iff_ne, ne_eq]
        rw [← hs]
        exact hq
      rw [List.find?_cons, hqs]
      exact ih (List.pairwise_cons.mp hu).2 hmem

/-- Inserting a post yields a permutation of consing it. -/
lemma insertPost_perm (x : Post) (l : List Post) :
    List.Perm (insertPost x l) (x :: l) := by
  induction l with
  | nil => exact List.Perm.refl _
  | cons y ys ih =>
    rw [insertPost]
    by_cases hc : jsCompare x y ≤ 0
    · rw [if_pos hc]
    · rw [if_neg hc]
      exact (ih.cons y).trans (List.Perm.swap x y ys)

/-- The listing sort permutes the collection. -/
lemma sortPosts_perm (l : List Post) : List.Perm (sortPosts l) l := by
  induction l with
  | nil => exact List.Perm.refl _
  | cons x xs ih =>
    rw [sortPosts]
    exact (insertPost_perm x (sortPosts xs)).trans (ih.cons x)

/-- Entry `p` is listed no later than entry `q`: `p`'s parsed date is greater
than or equal to `q`'s (dates compared as epoch milliseconds). -/
def dateDesc (p q : Post) : Prop :=
  (postTime q).getD 0 ≤ (postTime p).getD 0

instance : DecidableRel dateDesc := fun _ _ =>
  inferInstanceAs (Decidable (_ ≤ _))

/-- A non-positive comparator value means the dates are in descending order,
when both dates parse. -/
lemma dateDesc_of_compare_nonpos {x y : Post}
    (hx : (postTime x).isSome) (hy : (postTime y).isSome)
    (h : jsCompare x y ≤ 0) : dateDesc x y := by
  obtain ⟨tx, hx'⟩ := Option.isSome_iff_exists.mp hx
  obtain ⟨ty, hy'⟩ := Option.isSome_iff_exists.mp hy
  simp only [jsCompare, hx', hy'] at h
  rw [dateDesc, hx', hy']
  simpa using h

/-- A positive comparator value means the dates are in ascending order, when
both dates parse. -/
lemma dateDesc_of_compare_pos {x y : Post}
    (hx : (postTime x).isSome) (hy : (postTime y).isSome)
    (h : ¬ jsCompare x y ≤ 0) : dateDesc y x := by
  obtain ⟨tx, hx'⟩ := Option.isSome_iff_exists.mp hx
  obtain ⟨ty, hy'⟩ := Option.isSome_iff_exists.mp hy
  simp only [jsCompare, hx', hy'] at h
  rw [dateDesc, hx', hy']
  simp only [Option.getD_some]
  omega

/-- Inserting into a date-descending list of parseable-date posts keeps it
date-descending. -/
lemma chain'_insertPost (x : Post) (l : List Post)
    (hx : (postTime x).isSome) (hl : ∀ y ∈ l, (postTime y).isSome)
    (h : List.Chain' dateDesc l) : List.Chain' dateDesc (insertPost x l) := by
  induction l with
  | nil => simp [insertPost]
  | cons y ys ih =>
    have hy : (postTime y).isSome := hl y (List.mem_cons_self y ys)
    have hys : ∀ z ∈ ys, (postTime z).isSome :=
      fun z hz => hl z (List.mem_cons_of_mem y hz)
    rw [insertPost]
    by_cases hc : jsCompare x y ≤ 0
    · rw [if_pos hc]
      exact List.Chain'.cons (dateDesc_of_compare_nonpos hx hy hc) h
    · rw [if_neg hc]
      have htail : List.Chain' dateDesc (insertPost x ys) :=
        ih hys (List.Chain'.tail h)
      apply List.chain'_cons'.mpr
      refine ⟨?_, htail⟩
      intro z hz
      cases ys with
      | nil =>
        simp only [insertPost, List.head?] at hz
        rw [Option.mem_def, Option.some_inj] at hz
        rw [← hz]
        exact dateDesc_of_compare_pos hx hy hc
      | cons w ws =>
        have hw : (postTime w).isSome := hys w (List.mem_cons_self w ws)
        rw [insertPost] at hz
        by_cases hc2 : jsCompare x w ≤ 0
        · rw [if_pos hc2] at hz
          simp only [List.head?, Option.mem_def, Option.some_inj] at hz
          rw [← hz]
          exact dateDesc_of_compare_pos hx hy hc
        · rw [if_neg hc2] at hz
          simp only [List.head?, Option.mem_def, Option.some_inj] at hz
          rw [← hz]
          exact (List.chain'_cons'.mp h).1 w (by simp [List.head?])

/-- Sorting a collection of parseable-date posts yields a date-descending
chain. -/
lemma chain'_sortPosts (posts : List Post)
    (h : ∀ p ∈ posts, (postTime p).isSome) :
    List.Chain' dateDesc (sortPosts posts) := by
  induction posts with
  | nil => simp [sortPosts]
  | cons x xs ih =>
    rw [sortPosts]
    apply chain'_insertPost x (sortPosts xs) (h x (List.mem_cons_self x xs))
    · intro y hy
      exact h y (List.mem_cons_of_mem x ((sortPosts_perm xs).mem_iff.mp hy))
    · exact ih (fun p hp => h p (List.mem_cons_of_mem x hp))

/-- Two posts with the same date string compare as equal. -/
lemma jsCompare_eq_zero_of_date_eq {x y : Post} (h : x.date = y.date) :
    jsCompare x y = 0 := by
  have hpt : postTime x = postTime y := by rw [postTime, postTime, h]
  cases hy : postTime y with
  | none => simp [jsCompare, hy, hpt.trans hy]
  | some t =>
    simp only [jsCompare, hy, hpt.trans hy]
    omega

/-- Inserting a post whose date is `d` puts it in front of every other
post of date `d` already present. -/
lemma filter_insertPost_of_date {x : Post} {d : String} (l : List Post)
    (hx : x.date = d) :
    (insertPost x l).filter (fun p => p.date == d) =
      x :: l.filter (fun p => p.date == d) := by
  induction l with
  | nil => simp [insertPost, List.filter_cons, hx]
  | cons y ys ih =>
    rw [insertPost]
    by_cases hc : jsCompare x y ≤ 0
    · rw [if_pos hc]
      simp [List.filter_cons, hx]
    · rw [if_neg hc]
      have hyd : (y.date == d) = false := by
        simp only [beq_eq_false_iff_ne, ne_eq]
        intro hyd
        exact hc (le_of_eq (jsCompare_eq_zero_of_date_eq (hx.trans hyd.symm)))
      rw [List.filter_cons, List.filter_cons, hyd, ih]
      simp [hyd]

/-- Inserting a post of another date does not disturb the posts of date
`d`. -/
lemma filter_insertPost_of_date_ne {x : Post} {d : String} (l : List Post)
    (hx : ¬ x.date = d) :
    (insertPost x l).filter (fun p => p.date == d) =
      l.filter (fun p => p.date == d) := by
  induction l with
  | nil => simp [insertPost, List.filter_cons, hx]
  | cons y ys ih =>
    rw [insertPost]
    by_cases hc : jsCompare x y ≤ 0
    · rw [if_pos hc]
      simp [List.filter_cons, hx]
    · rw [if_neg hc]
      rw [List.filter_cons, List.filter_cons, ih]

/-- C1: for every post collection with pairwise-distinct `slugAsParams` (a
spec invariant) and every requested slug-segment list, the detail lookup
returns exactly the post whose `slugAsParams` equals the `/`-joined segments,
under exact case-sensitive string equality; in particular the collection whose
only post has `slugAsParams` `Foo` does not answer a request for `foo`. -/
theorem detail_lookup_exact_case_sensitive :
    (∀ (posts : List Post) (segs : List String) (p : Post),
        List.Pairwise (fun a b => a.slugAsParams ≠ b.slugAsParams) posts →
        (getPostFromParams posts (some ⟨some segs⟩) = some p ↔
          p ∈ posts ∧ p.slugAsParams = joinSlash segs)) ∧
      getPostFromParams [postFoo] (some ⟨some ["foo"]⟩) = none := by
  constructor
  · intro posts segs p hu
    rw [getPostFromParams_some_eq]
    constructor
    · intro h
      have hpred := List.find?_some h
      exact ⟨List.mem_of_find?_eq_some h, eq_of_beq hpred⟩
    · rintro ⟨hp, hs⟩
      exact find?_slug_eq posts (joinSlash segs) p hu hp hs
  · decide

/-- Witness for C1 at a concrete collection and request. -/
theorem detail_lookup_exact_case_sensitive_witness :
    getPostFromParams [postFoo, postB] (some ⟨some ["b"]⟩) = some postB :=
  (detail_lookup_exact_case_sensitive.1 [postFoo, postB] ["b"] postB
    (by decide)).mpr (by decide)

/-- C2: for every post collection whose dates all parse, the listing order is
date-descending between adjacent entries; and the spec's scenario collection
(dates 2025-01-01 and 2025-06-02, in that order) is listed in the order
b, a. -/
theorem listing_sorted_date_descending :
    (∀ posts : List Post, (∀ p ∈ posts, (postTime p).isSome) →
        List.Chain' dateDesc (sortPosts posts)) ∧
      (Home [postA, postB]).1 = [mkHomeEntry postB, mkHomeEntry postA] :=
  ⟨chain'_sortPosts, by decide⟩

/-- Witness for C2 at the concrete scenario collection. -/
theorem listing_sorted_date_descending_witness :
    List.Chain' dateDesc (sortPosts [postA, postB]) :=
  listing_sorted_date_descending.1 [postA, postB] (by decide)

/-- C3: a requested slug matching no post makes the lookup return the
sentinel absence value, and the detail view then produces the framework's
not-found signal terminating the request; the hypothesis asks only that no
exact match exists, so no fallback (fuzzy or otherwise) is ever consulted. -/
theorem absent_slug_not_found :
    ∀ (posts : List Post) (segs : List String),
      joinSlash segs ∉ posts.map (fun p => p.slugAsParams) →
      getPostFromParams posts (some ⟨some segs⟩) = none ∧
      PostPage posts (some ⟨some segs⟩) = RenderResult.notFound := by
  intro posts segs h
  have hn : getPostFromParams posts (some ⟨some segs⟩) = none := by
    rw [getPostFromParams_some_eq]
    apply List.find?_eq_none.mpr
    intro x hx
    simp only [beq_iff_eq]
    intro hxs
    exact h (hxs ▸ List.mem_map_of_mem (fun p => p.slugAsParams) hx)
  exact ⟨hn, by simp only [PostPage, hn]⟩

/-- Witness for C3 at a concrete collection and missing slug. -/
theorem absent_slug_not_found_witness :
    getPostFromParams [postFoo] (some ⟨some ["missing"]⟩) = none ∧
    PostPage [postFoo] (some ⟨some ["missing"]⟩) = RenderResult.notFound :=
  absent_slug_not_found [postFoo] ["missing"] (by decide)

/-- C4: the listing sort is stable: for any date value, the subsequence of
posts carrying exactly that date is untouched by the sort, so any two posts
with identical date values keep their relative input order in the output. -/
theorem listing_sort_stable :
    ∀ (posts : List Post) (d : String),
      (sortPosts posts).filter (fun p => p.date == d) =
        posts.filter (fun p => p.date == d) := by
  intro posts d
  induction posts with
  | nil => rfl
  | cons x xs ih =>
    rw [sortPosts]
    by_cases hx : x.date = d
    · rw [filter_insertPost_of_date (sortPosts xs) hx, ih, List.filter_cons]
      simp [hx]
    · rw [filter_insertPost_of_date_ne (sortPosts xs) hx, ih, List.filter_cons]
      simp [hx]

/-- C5 (code bug): rendering the listing is not mutation-free.
`allPosts.sort(...)` sorts the array in place, so after rendering the spec's
scenario collection the element order of `allPosts` has changed from
`[postA, postB]` to `[postB, postA]`. -/
theorem listing_mutates_collection :
    (Home [postA, postB]).2 = [postB, postA] ∧
    (Home [postA, postB]).2 ≠ [postA, postB] := by decide

/-- C6: metadata generation performs the same lookup as the detail view; when
it returns the sentinel absence it yields the empty metadata object, and when
it returns a post it yields that post's title and description. -/
theorem metadata_same_lookup :
    ∀ (posts : List Post) (params : Option Params),
      (getPostFromParams posts params = none →
        generateMetadata posts params = emptyMetadata) ∧
      (∀ p : Post, getPostFromParams posts params = some p →
        generateMetadata posts params = ⟨some p.title, p.description⟩) := by
  intro posts params
  constructor
  · intro h
    simp only [generateMetadata, h]
  · intro p h
    simp only [generateMetadata, h]

/-- Witness for C6: both the found and the not-found branch at concrete
requests. -/
theorem metadata_same_lookup_witness :
    generateMetadata [postFoo] (some ⟨some ["Foo"]⟩) =
      ⟨some postFoo.title, postFoo.description⟩ ∧
    generateMetadata [postFoo] (some ⟨some ["missing"]⟩) = emptyMetadata :=
  ⟨(metadata_same_lookup [postFoo] (some ⟨some ["Foo"]⟩)).2 postFoo (by decide),
   (metadata_same_lookup [postFoo] (some ⟨some ["missing"]⟩)).1 (by decide)⟩

/-- C7: static path enumeration yields exactly one params object per post —
the lists have equal length and the `i`-th params object carries the
`/`-split of the `i`-th post's `slugAsParams`. -/
theorem static_params_one_per_post :
    ∀ posts : List Post,
      (generateStaticParams posts).length = posts.length ∧
      ∀ i : Nat, (generateStaticParams posts)[i]? =
        posts[i]?.map (fun p => (⟨some (splitSlash p.slugAsParams)⟩ : Params)) := by
  intro posts
  constructor
  · simp [generateStaticParams]
  · intro i
    simp [generateStaticParams]

/-- C8 counterexample: the listing view formats the scenario post's date as
`Jun 2, 2025` — the abbreviated month name — which differs from the
long-month rendering `June 2, 2025` the claim asserts. -/
theorem listing_month_short_counterexample :
    (Home [postB]).1.map (fun e => e.dateFormatted) = ["Jun 2, 2025"] ∧
    jsFormatDate MonthStyle.long postB.date = "June 2, 2025" ∧
    (Home [postB]).1.map (fun e => e.dateFormatted) ≠
      [jsFormatDate MonthStyle.long postB.date] := by decide

/-- C8 amended: for every post of the collection with a parseable date, the
listing renders its date with the abbreviated (short) en-US month name,
numeric day and numeric year, while the detail view renders the same date
with the long month name. -/
theorem listing_short_month_detail_long :
    ∀ (posts : List Post) (p : Post) (y m d : Nat) (params : Option Params),
      p ∈ posts →
      parseYMD p.date = some (y, m, d) →
      getPostFromParams posts params = some p →
      mkHomeEntry p ∈ (Home posts).1 ∧
      (mkHomeEntry p).dateFormatted =
        monthName MonthStyle.short m ++ " " ++ toString d ++ ", " ++ toString y ∧
      PostPage posts params =
        RenderResult.page
          ⟨p.title,
           monthName MonthStyle.long m ++ " " ++ toString d ++ ", " ++ toString y,
           p.description, p.body⟩ := by
  intro posts p y m d params hp hparse hfind
  refine ⟨?_, ?_, ?_⟩
  · exact List.mem_map_of_mem mkHomeEntry ((sortPosts_perm posts).mem_iff.mpr hp)
  · simp only [mkHomeEntry, jsFormatDate, hparse]
  · simp only [PostPage, hfind, jsFormatDate, hparse]

/-- Witness for the amended C8 at the concrete scenario post. -/
theorem listing_short_month_detail_long_witness :
    mkHomeEntry postB ∈ (Home [postB]).1 ∧
    (mkHomeEntry postB).dateFormatted =
      monthName MonthStyle.short 6 ++ " " ++ toString 2 ++ ", " ++ toString 2025 ∧
    PostPage [postB] (some ⟨some ["b"]⟩) =
      RenderResult.page
        ⟨postB.title,
         monthName MonthStyle.long 6 ++ " " ++ toString 2 ++ ", " ++ toString 2025,
         postB.description, postB.body⟩ :=
  listing_short_month_detail_long [postB] postB 2025 6 2 (some ⟨some ["b"]⟩)
    (by decide) (by decide) (by decide)

/-- C9: round trip of enumeration and lookup: for a collection with
pairwise-distinct `slugAsParams`, the params object enumerated for a post `p`
(splitting its `slugAsParams` on `/`) is produced by the static enumeration,
and feeding it to the detail lookup (which joins with `/`) returns exactly
`p`. -/
theorem static_params_lookup_roundtrip :
    ∀ (posts : List Post) (p : Post),
      List.Pairwise (fun a b => a.slugAsParams ≠ b.slugAsParams) posts →
      p ∈ posts →
      (⟨some (splitSlash p.slugAsParams)⟩ : Params) ∈ generateStaticParams posts ∧
      getPostFromParams posts (some ⟨some (splitSlash p.slugAsParams)⟩) = some p := by
  intro posts p hu hp
  refine ⟨List.mem_map_of_mem _ hp, ?_⟩
  rw [getPostFromParams_some_eq]
  exact find?_slug_eq posts _ p hu hp (joinSlash_splitSlash p.slugAsParams).symm

/-- Witness for C9 at a concrete two-post collection. -/
theorem static_params_lookup_roundtrip_witness :
    (⟨some (splitSlash postB.slugAsParams)⟩ : Params) ∈
      generateStaticParams [postFoo, postB] ∧
    getPostFromParams [postFoo, postB]
      (some ⟨some (splitSlash postB.slugAsParams)⟩) = some postB :=
  static_params_lookup_roundtrip [postFoo, postB] postB (by decide) (by decide)

/-- C10: the lookup is total on degenerate inputs: an absent params object
and an absent slug-segment list both make the joined slug undefined, which
matches no post, so the lookup returns the sentinel absence value instead of
failing. -/
theorem lookup_total_on_degenerate :
    ∀ posts : List Post,
      getPostFromParams posts none = none ∧
      getPostFromParams posts (some ⟨none⟩) = none := by
  intro posts
  constructor
  · simp [getPostFromParams]
  · simp [getPostFromParams]

